import Mathlib

/-!
Verification of the timestamp-driven step pipeline of `streamlit_app.py`:
boilerplate stripping, procedure-table parsing, frame extraction paths,
step deletion, and document assembly.  The Python source is embedded
shallowly over `List Char`; machine text is handled with `\n` newlines
(the texts processed by the app are `\n`-separated).  Fallible Python
code (indexing, `re.search(..).group(..)`) is modelled with `Option`;
`none` stands for a raised exception.
-/

/-- A parsed procedure step: `(timestamp, action, hazard)` as appended at
`steps.append((ts, action, hazard))` in the source. -/
abbrev StepRec := String × String × String

/-- ASCII whitespace recognised by Python `str.strip()` and `\s`
(the Unicode extras do not occur in the handled texts). -/
def pyIsSpace (c : Char) : Bool :=
  c == ' ' || c == '\t' || c == '\n' || c == '\r' || c == '\x0b' || c == '\x0c'

/-- Python `str.strip()`: drop whitespace at both ends. -/
def pyStrip (l : List Char) : List Char :=
  ((l.dropWhile pyIsSpace).reverse.dropWhile pyIsSpace).reverse

/-- Python `str.split(sep)` for a one-character separator (no collapsing,
`"".split(sep) == [""]`). -/
def splitOnChar (sep : Char) (l : List Char) : List (List Char) :=
  l.foldr
    (fun c acc =>
      if c == sep then [] :: acc
      else
        match acc with
        | [] => [[c]]
        | h :: t => (c :: h) :: t)
    [[]]

/-- Python `str.splitlines()` for `\n`-separated text: split on `\n`,
with no empty final piece for a trailing newline and `[]` for `""`. -/
def pySplitlines (l : List Char) : List (List Char) :=
  let ps := splitOnChar '\n' l
  if ps.getLast? == some [] then ps.dropLast else ps

/-- Python `"\n".join(ls)`. -/
def joinNL : List (List Char) → List Char
  | [] => []
  | [x] => x
  | x :: xs => x ++ '\n' :: joinNL xs

/-- `re.match(r"^<num>\s+<word>", line)` as used for the section headers
`^1\.0\s+Purpose` and `^6\.0\s+Procedure`: the literal number prefix, one
or more whitespace characters, then the word. -/
def matchHeader (num word : List Char) (l : List Char) : Bool :=
  num.isPrefixOf l &&
    (let r := l.drop num.length
     decide (1 ≤ (r.takeWhile pyIsSpace).length) &&
       word.isPrefixOf (r.dropWhile pyIsSpace))

/-- `re.match(r"^1\.0\s+Purpose", line)` (line 127 of the source). -/
def matchPurpose (l : List Char) : Bool :=
  matchHeader "1.0".data "Purpose".data l

/-- `re.match(r"^6\.0\s+Procedure", line)` (line 142 of the source). -/
def matchSection6 (l : List Char) : Bool :=
  matchHeader "6.0".data "Procedure".data l

/-- Attempt of the pattern `\[(\d{2}:\d{2})\]` at the head of the text:
on success, the captured group `dd:dd`. -/
def clockAt : List Char → Option (List Char)
  | '[' :: a :: b :: ':' :: c :: d :: ']' :: _ =>
    if a.isDigit && b.isDigit && c.isDigit && d.isDigit then
      some [a, b, ':', c, d]
    else none
  | _ => none

/-- `re.search(r"\[(\d{2}:\d{2})\]", s)`: the captured group of the
leftmost match, if any (line 148 of the source). -/
def findClock : List Char → Option (List Char)
  | [] => none
  | c :: rest =>
    match clockAt (c :: rest) with
    | some ts => some ts
    | none => findClock rest

/-- Scanner for `re.findall(r"\[(\d{2}:\d{2})\]", s)`: `skip` positions
still to pass over after a match (each match is 7 characters wide, so
6 follow the position already stepped past). -/
def findAllClockAux : Nat → List Char → List (List Char)
  | _, [] => []
  | skip + 1, _ :: rest => findAllClockAux skip rest
  | 0, c :: rest =>
    match clockAt (c :: rest) with
    | some ts => ts :: findAllClockAux 6 rest
    | none => findAllClockAux 0 rest

/-- `re.findall(r"\[(\d{2}:\d{2})\]", s)`: all captured groups of the
leftmost non-overlapping matches. -/
def findAllClock (l : List Char) : List (List Char) :=
  findAllClockAux 0 l

/-- The index loop at lines 126-131 of the source
(`for idx, line in enumerate(lines): if re.match(...): break / else:`):
index of the first line matching `^1\.0\s+Purpose`, if any. -/
def firstPurposeIdx : List (List Char) → Option Nat
  | [] => none
  | l :: ls => if matchPurpose l then some 0 else (firstPurposeIdx ls).map (· + 1)

/-- Lines 124-132 of the source: strip any leading boilerplate before the
first line matching `1.0 Purpose`; keep `raw` itself when no line matches.
`raw` is read, never written. -/
def stripBoilerplate (raw : String) : String :=
  match firstPurposeIdx (pySplitlines raw.data) with
  | some idx => String.mk (joinNL ((pySplitlines raw.data).drop idx))
  | none => raw

/-- `line.strip().startswith("| [")` (line 145 of the source). -/
def rowStart (line : List Char) : Bool :=
  "| [".data.isPrefixOf (pyStrip line)

/-- `line.strip() == ""` (line 152 of the source). -/
def isBlank (line : List Char) : Bool :=
  (pyStrip line).isEmpty

/-- Lines 146-151 of the source, for one table row:
`cols = [c.strip() for c in line.split("|")[1:-1]]`, then
`ts = re.search(r"\[(\d{2}:\d{2})\]", cols[1]).group(1)`,
`action = cols[2]`, `hazard = cols[4]`.  `none` models the raised
`IndexError`/`AttributeError` when a column is missing or the pattern
does not occur in `cols[1]`. -/
def parseRow (line : List Char) : Option StepRec :=
  let cols := (((splitOnChar '|' line).drop 1).dropLast).map pyStrip
  match cols.get? 1 with
  | none => none
  | some c1 =>
    match findClock c1 with
    | none => none
    | some ts =>
      match cols.get? 2, cols.get? 4 with
      | some act, some haz => some (String.mk ts, String.mk act, String.mk haz)
      | _, _ => none

/-- The loop at lines 139-153 of the source.  `inProc` is the `in_proc`
flag; a header line sets it and `continue`s; a row line (strip begins
`"| ["`) is parsed and appended; a blank line inside the section
`break`s.  `none` models an exception escaping the loop. -/
def parseLoop : Bool → List (List Char) → Option (List StepRec)
  | _, [] => some []
  | inProc, line :: rest =>
    if matchSection6 line then parseLoop true rest
    else if inProc && rowStart line then
      match parseRow line with
      | none => none
      | some s => (parseLoop inProc rest).map (s :: ·)
    else if inProc && isBlank line then some []
    else parseLoop inProc rest

/-- `parse` of the draft: the procedure-table parsing step of the source
(lines 139-154), producing `st.session_state.steps`. -/
def parse (cleaned : String) : Option (List StepRec) :=
  parseLoop false (pySplitlines cleaned.data)

/-- The row lines the loop at lines 139-153 feeds to the column/regex
extraction, in loop order: same control flow as `parseLoop`, collecting
the raw lines instead of parsing them. -/
def collectRows : Bool → List (List Char) → List (List Char)
  | _, [] => []
  | inProc, line :: rest =>
    if matchSection6 line then collectRows true rest
    else if inProc && rowStart line then line :: collectRows inProc rest
    else if inProc && isBlank line then []
    else collectRows inProc rest

/-- Sequential parsing of a list of row lines; `none` as soon as one row
fails, mirroring the exception escaping the Python loop. -/
def rowsParse : List (List Char) → Option (List StepRec)
  | [] => some []
  | r :: rs =>
    match parseRow r with
    | none => none
    | some s => (rowsParse rs).map (s :: ·)

/-- Python `list.pop(i)` (lines 185-186 of the source), result list:
the element at `i` removed. -/
def pyPop (l : List α) (i : Nat) : List α :=
  l.take i ++ l.drop (i + 1)

/-- The selectbox labels of lines 173-176 of the source:
`f"Step {i+1} – [{ts}] {act}"` over the enumerated steps. -/
def labelsOf (steps : List StepRec) : List String :=
  steps.enum.map (fun p => "Step " ++ toString (p.1 + 1) ++ " – [" ++ p.2.1 ++ "] " ++ p.2.2.1)

/-- Python `list.index(x)` (line 178 of the source): index of the first
occurrence; `none` models the raised `ValueError` when absent (the
selectbox always hands back one of the labels). -/
def pyIndex : List String → String → Option Nat
  | [], _ => none
  | x :: xs, s => if x == s then some 0 else (pyIndex xs s).map (· + 1)

/-- One extracted frame record, `{"time": ts, "path": img}`
(line 165 of the source). -/
structure Frame where
  time : String
  path : String
deriving DecidableEq, Repr

/-- `os.path.join(tmp_dir, f"frame_{ts.replace(':','_')}.png")`
(line 159 of the source); `replace` of the one-character pattern `:`
is a per-character substitution. -/
def framePath (tmpDir ts : List Char) : List Char :=
  tmpDir ++ '/' :: ("frame_".data ++ ts.map (fun c => if c == ':' then '_' else c) ++ ".png".data)

/-- The extraction loop at lines 157-166 of the source.  The ffmpeg call
itself is an external side effect; `ex img` abstracts the
`os.path.exists(img)` test after it ran.  A frame record is appended
only when the file exists. -/
def extractFrames (ex : List Char → Bool) (tmpDir : List Char) (steps : List StepRec) :
    List Frame :=
  steps.filterMap (fun s =>
    let img := framePath tmpDir s.1.data
    if ex img then some ⟨s.1, String.mk img⟩ else none)

/-- `next((f["path"] for f in frames if f["time"] == ts), None)`
(line 223 of the source). -/
def lookupImg (frames : List Frame) (ts : String) : Option String :=
  (frames.find? (fun f => f.time == ts)).map Frame.path

/-- One element of the assembled document: a heading with a level, a
body paragraph, or an embedded picture (identified by its file path). -/
inductive DocItem where
  | heading : String → Nat → DocItem
  | para : String → DocItem
  | picture : String → DocItem
deriving DecidableEq, Repr

/-- Lines 219-226 of the source, for one step of the registry: a
`Heading 2` run `f"Step {idx} – [{ts}] {act}"`, the hazard paragraph,
then — only when the timestamp lookup in `frames` succeeds — the
picture and a spacer paragraph.  Frame paths are nonempty, so the
Python truthiness test `if img:` is the `some` case. -/
def stepBlock (frames : List Frame) (idx : Nat) (s : StepRec) : List DocItem :=
  DocItem.heading ("Step " ++ toString idx ++ " – [" ++ s.1 ++ "] " ++ s.2.1) 2 ::
    DocItem.para ("Hazard: " ++ s.2.2) ::
    (match lookupImg frames s.1 with
     | some p => [DocItem.picture p, DocItem.para ""]
     | none => [])

/-- The `for idx, (ts, act, haz) in enumerate(st.session_state.steps, start=1)`
emission loop of the docx export (lines 219-226 of the source). -/
def emitProcedure (steps : List StepRec) (frames : List Frame) : List DocItem :=
  (steps.enum.map (fun p => stepBlock frames (p.1 + 1) p.2)).flatten

/-- The session filesystem, as the overwrite-map from frame paths to
image contents (contents abstracted as `Nat`). -/
abbrev Fs := List (List Char × Nat)

/-- An overwriting file write: models `ffmpeg -y` replacing any previous
file at the same path (line 161 of the source). -/
def fsWrite (fs : Fs) (p : List Char) (v : Nat) : Fs :=
  (p, v) :: fs.filter (fun e => !(e.1 == p))

/-- The per-session registry state: the parsed steps and the on-disk
frame files they own. -/
structure RegState where
  steps : List StepRec
  fs : Fs
deriving DecidableEq, Repr

/-- Modelled from the spec: the `reExtract(index)` operation (§4.3) is
present only in repository variants absent from `src/`; `src/` extracts
each frame once (lines 157-166).  Re-extraction re-invokes the decoder
(`decode`, deterministic per §8 "up to decoder determinism") for the
step's timestamp against the original video and overwrites the
deterministic path `frame_MM_SS.png` (`ffmpeg -y`).  An out-of-range
index fails fast (§4.3), modelled as `none`. -/
def reExtract (decode : List Char → List Char → Nat) (tmpDir video : List Char)
    (st : RegState) (i : Nat) : Option RegState :=
  match st.steps.get? i with
  | none => none
  | some s =>
    some { st with fs := fsWrite st.fs (framePath tmpDir s.1.data) (decode video s.1.data) }

/-- Attempt of the pattern `(\d+(?:\.\d+)?)s` at the head of the text:
on success, the captured numeral and the remainder after the final
`s`. -/
def secondsAt (l : List Char) : Option (List Char × List Char) :=
  let d1 := l.takeWhile Char.isDigit
  if d1.isEmpty then none
  else
    match l.drop d1.length with
    | '.' :: r2 =>
      let d2 := r2.takeWhile Char.isDigit
      if d2.isEmpty then none
      else
        match r2.drop d2.length with
        | 's' :: rest => some (d1 ++ '.' :: d2, rest)
        | _ => none
    | 's' :: rest => some (d1, rest)
    | _ => none

/-- Scanner for `re.findall(r"(\d+(?:\.\d+)?)s", s)`: `skip` positions
still to pass over after a match (a match of total width `k` leaves
`k - 1` positions to skip after stepping one ahead); scanning resumes
right after each match. -/
def findAllSecondsAux : Nat → List Char → List (List Char)
  | _, [] => []
  | skip + 1, _ :: rest => findAllSecondsAux skip rest
  | 0, c :: rest =>
    match secondsAt (c :: rest) with
    | some (num, after) =>
      num :: findAllSecondsAux ((c :: rest).length - after.length - 1) rest
    | none => findAllSecondsAux 0 rest

/-- `re.findall(r"(\d+(?:\.\d+)?)s", text)`: captured numerals of the
leftmost non-overlapping matches. -/
def findAllSeconds (l : List Char) : List (List Char) :=
  findAllSecondsAux 0 l

/-- First-occurrence de-duplication with an accumulator of already seen
values. -/
def dedupAux : List (List Char) → List (List Char) → List (List Char)
  | _, [] => []
  | seen, x :: xs => if x ∈ seen then dedupAux seen xs else x :: dedupAux (x :: seen) xs

/-- Keep the first occurrence of each value, in first-appearance order. -/
def dedupFirst (l : List (List Char)) : List (List Char) :=
  dedupAux [] l

/-- Modelled from the spec: the mention scanner of the repository
variants absent from `src/` (§4.1).  Clock-bracket matches anywhere in
the text take precedence; the bare `<number>s` shape is scanned only
when zero clock matches were found, and then each distinct numeric
value becomes its own record with the label defaulting to empty. -/
def mentionRecords (text : String) : List (String × String) :=
  let clocks := findAllClock text.data
  if clocks.isEmpty then
    (dedupFirst (findAllSeconds text.data)).map (fun n => (String.mk n, ""))
  else
    clocks.map (fun ts => (String.mk ts, ""))

/-- The spec's example draft of two bracketed markers on plain lines
(§8, first property). -/
def exDraftPlain : String := "[00:05] Fold box\n[00:12] Seal box"

/-- A draft whose 6.0 Procedure table carries the same two markers in
well-formed table rows. -/
def exDraftTable : String :=
  "6.0 Procedure\n| [1] | [00:05] | Fold box | [frame] | Sharp blade |\n| [2] | [00:12] | Seal box | [frame] | None |"

/-- A draft whose procedure table re-emits the marker `[00:05]` in two
rows with different trailing text. -/
def exDraftDup : String :=
  "6.0 Procedure\n| [1] | [00:05] | First action | v | h1 |\n| [2] | [00:05] | Second action | v | h2 |"

/-- A draft whose procedure table holds one row with the malformed
(non-digit) marker `[AB:CD]` in the TIMESTAMP column. -/
def exDraftBadRow : String :=
  "6.0 Procedure\n| [1] | [AB:CD] | Do thing | v | h |"

/-- A draft containing no marker of any supported shape, only a
table-looking line inside the 6.0 Procedure section. -/
def exDraftNoMarker : String := "6.0 Procedure\n| [ab | cd |"

/-- A raw generated text with leading boilerplate and a trailing
newline. -/
def exRawTrail : String := "intro\n1.0 Purpose\nbody\n"

/-- A draft with malformed markers on plain lines and one well-formed
procedure-table row. -/
def exDraftMixed : String :=
  "[9:9] junk [AB:CD]\n6.0 Procedure\n| [1] | [12:34] | Act | v | h |"

/-- A prose draft without any table-looking line. -/
def exDraftProse : String := "hello world\nno markers here"

/-- A text with both clock-bracket and seconds-offset mentions. -/
def exMentionClock : String := "see [00:05] then 12s and [00:12]"

/-- A text with only seconds-offset mentions, one value repeated. -/
def exMentionSecs : String := "at 12.5s then 12.5s then 30s"

/- ------------------------------------------------------------------ -/
/- Shared lemmas                                                      -/
/- ------------------------------------------------------------------ -/

/-- The parsing loop is exactly row collection followed by sequential
row parsing. -/
theorem parseLoop_eq_rowsParse :
    ∀ (ls : List (List Char)) (b : Bool), parseLoop b ls = rowsParse (collectRows b ls) := by
  intro ls
  induction ls with
  | nil => intro b; rfl
  | cons line rest ih =>
    intro b
    simp only [parseLoop, collectRows]
    split
    · exact ih true
    · split
      · cases hp : parseRow line with
        | none => simp [rowsParse, hp]
        | some s => simp [rowsParse, hp, ih b]
      · split
        · rfl
        · exact ih b

/-- Sequential row parsing yields one step per row. -/
theorem rowsParse_length :
    ∀ {rs : List (List Char)} {steps : List StepRec},
      rowsParse rs = some steps → steps.length = rs.length := by
  intro rs
  induction rs with
  | nil =>
    intro steps h
    simp only [rowsParse, Option.some.injEq] at h
    simp [← h]
  | cons r rs ih =>
    intro steps h
    simp only [rowsParse] at h
    cases hp : parseRow r with
    | none => rw [hp] at h; cases h
    | some s =>
      rw [hp] at h
      cases hq : rowsParse rs with
      | none => rw [hq] at h; cases h
      | some st =>
        rw [hq] at h
        simp only [Option.map_some', Option.some.injEq] at h
        subst h
        simp [ih hq]

/-- The `j`-th parsed step comes from the `j`-th row. -/
theorem rowsParse_get :
    ∀ {rs : List (List Char)} {steps : List StepRec},
      rowsParse rs = some steps →
      ∀ j s, steps.get? j = some s → ∃ r, rs.get? j = some r ∧ parseRow r = some s := by
  intro rs
  induction rs with
  | nil =>
    intro steps h j s hs
    simp only [rowsParse, Option.some.injEq] at h
    subst h
    simp at hs
  | cons r rs ih =>
    intro steps h j s hs
    simp only [rowsParse] at h
    cases hp : parseRow r with
    | none => rw [hp] at h; cases h
    | some s0 =>
      rw [hp] at h
      cases hq : rowsParse rs with
      | none => rw [hq] at h; cases h
      | some st =>
        rw [hq] at h
        simp only [Option.map_some', Option.some.injEq] at h
        subst h
        cases j with
        | zero =>
          simp only [List.get?] at hs
          cases hs
          exact ⟨r, rfl, hp⟩
        | succ j =>
          simp only [List.get?] at hs
          obtain ⟨r0, hr0, hps⟩ := ih hq j s hs
          exact ⟨r0, hr0, hps⟩

/-- Steps satisfying a predicate are counted row by row. -/
theorem rowsParse_countP (p : StepRec → Bool) :
    ∀ {rs : List (List Char)} {steps : List StepRec},
      rowsParse rs = some steps →
      steps.countP p = rs.countP (fun r => ((parseRow r).map p).getD false) := by
  intro rs
  induction rs with
  | nil =>
    intro steps h
    simp only [rowsParse, Option.some.injEq] at h
    subst h
    simp
  | cons r rs ih =>
    intro steps h
    simp only [rowsParse] at h
    cases hp : parseRow r with
    | none => rw [hp] at h; cases h
    | some s0 =>
      rw [hp] at h
      cases hq : rowsParse rs with
      | none => rw [hq] at h; cases h
      | some st =>
        rw [hq] at h
        simp only [Option.map_some', Option.some.injEq] at h
        subst h
        simp [List.countP_cons, ih hq, hp]

/-- Sequential row parsing succeeds when every row parses. -/
theorem rowsParse_isSome :
    ∀ {rs : List (List Char)}, (∀ r ∈ rs, (parseRow r).isSome) → (rowsParse rs).isSome := by
  intro rs
  induction rs with
  | nil => intro _; simp [rowsParse]
  | cons r rs ih =>
    intro h
    have hr := h r (by simp)
    simp only [rowsParse]
    cases hp : parseRow r with
    | none => rw [hp] at hr; cases hr
    | some s =>
      have := ih (fun x hx => h x (by simp [hx]))
      cases hq : rowsParse rs with
      | none => rw [hq] at this; cases this
      | some st => simp

/-- When no line looks like a table row, the loop collects nothing. -/
theorem collectRows_nil :
    ∀ (ls : List (List Char)) (b : Bool),
      (∀ l ∈ ls, rowStart l = false) → collectRows b ls = [] := by
  intro ls
  induction ls with
  | nil => intro b _; rfl
  | cons line rest ih =>
    intro b h
    have hline := h line (by simp)
    simp only [collectRows]
    split
    · exact ih true (fun x hx => h x (by simp [hx]))
    · split
      · next hcond => simp [hline] at hcond
      · split
        · rfl
        · exact ih b (fun x hx => h x (by simp [hx]))

/-- `firstPurposeIdx` returns the index of the first matching line:
that line matches and no earlier line does. -/
theorem firstPurposeIdx_spec :
    ∀ (ls : List (List Char)) (idx : Nat), firstPurposeIdx ls = some idx →
      (∃ l, ls.get? idx = some l ∧ matchPurpose l = true) ∧
      ∀ j, j < idx → ∀ l, ls.get? j = some l → matchPurpose l = false := by
  intro ls
  induction ls with
  | nil => intro idx h; simp [firstPurposeIdx] at h
  | cons l0 ls ih =>
    intro idx h
    simp only [firstPurposeIdx] at h
    by_cases hm : matchPurpose l0
    · rw [if_pos hm] at h
      simp only [Option.some.injEq] at h
      subst h
      exact ⟨⟨l0, rfl, hm⟩, fun j hj => by omega⟩
    · rw [if_neg hm] at h
      cases hq : firstPurposeIdx ls with
      | none => rw [hq] at h; cases h
      | some k =>
        rw [hq] at h
        simp only [Option.map_some', Option.some.injEq] at h
        subst h
        obtain ⟨⟨l1, hl1, hm1⟩, hbefore⟩ := ih k hq
        refine ⟨⟨l1, by simpa using hl1, hm1⟩, ?_⟩
        intro j hj l hl
        cases j with
        | zero =>
          simp only [List.get?] at hl
          cases hl
          revert hm
          cases matchPurpose l0 <;> simp
        | succ j => exact hbefore j (by omega) l (by simpa using hl)

/-- An index found by Python `list.index` is a valid position. -/
theorem pyIndex_lt :
    ∀ (ls : List String) (s : String) (c : Nat), pyIndex ls s = some c → c < ls.length := by
  intro ls
  induction ls with
  | nil => intro s c h; cases h
  | cons x xs ih =>
    intro s c h
    simp only [pyIndex] at h
    by_cases hx : x == s
    · rw [if_pos hx] at h
      simp only [Option.some.injEq] at h
      subst h
      simp
    · rw [if_neg hx] at h
      cases hq : pyIndex xs s with
      | none => rw [hq] at h; cases h
      | some k =>
        rw [hq] at h
        simp only [Option.map_some', Option.some.injEq] at h
        subst h
        have := ih s k hq
        simp only [List.length_cons]
        omega

/-- Nothing emitted by `dedupAux` was already seen. -/
theorem dedupAux_not_mem :
    ∀ (l seen : List (List Char)) (y : List Char), y ∈ dedupAux seen l → y ∉ seen := by
  intro l
  induction l with
  | nil => intro seen y hy; simp [dedupAux] at hy
  | cons x xs ih =>
    intro seen y hy
    simp only [dedupAux] at hy
    by_cases hx : x ∈ seen
    · rw [if_pos hx] at hy
      exact ih seen y hy
    · rw [if_neg hx] at hy
      rcases List.mem_cons.mp hy with h1 | h2
      · subst h1; exact hx
      · intro hc
        exact (ih (x :: seen) y h2) (List.mem_cons_of_mem x hc)

/-- First-occurrence de-duplication yields no duplicates. -/
theorem dedupAux_nodup : ∀ (l seen : List (List Char)), (dedupAux seen l).Nodup := by
  intro l
  induction l with
  | nil => intro seen; simp [dedupAux]
  | cons x xs ih =>
    intro seen
    simp only [dedupAux]
    by_cases hx : x ∈ seen
    · rw [if_pos hx]; exact ih seen
    · rw [if_neg hx]
      refine List.nodup_cons.mpr ⟨?_, ih (x :: seen)⟩
      intro hc
      exact (dedupAux_not_mem xs (x :: seen) x hc) (by simp)

/-- The `String` constructor is injective. -/
theorem stringMk_injective : Function.Injective String.mk := by
  intro a b h
  injection h

/-- Overwriting the same path with the same contents twice equals doing
it once. -/
theorem fsWrite_idem (fs : Fs) (p : List Char) (v : Nat) :
    fsWrite (fsWrite fs p v) p v = fsWrite fs p v := by
  simp [fsWrite, List.filter_filter]

/-- Any picture inside an emitted step block is the path of a frame of
the registry. -/
theorem stepBlock_picture (frames : List Frame) (idx : Nat) (s : StepRec) (p : String)
    (h : DocItem.picture p ∈ stepBlock frames idx s) : ∃ f ∈ frames, f.path = p := by
  unfold stepBlock at h
  cases hl : lookupImg frames s.1 with
  | none => rw [hl] at h; simp at h
  | some p0 =>
    rw [hl] at h
    simp only [List.mem_cons] at h
    rcases h with h | h | h | h
    · cases h
    · cases h
    · cases h
      unfold lookupImg at hl
      cases hf : frames.find? (fun f => f.time == s.1) with
      | none => rw [hf] at hl; cases hl
      | some f =>
        rw [hf] at hl
        simp only [Option.map_some', Option.some.injEq] at hl
        exact ⟨f, List.mem_of_find?_eq_some hf, hl⟩
    · simp at h

/-- Every frame record produced by the extraction loop carries the
canonical path of its timestamp, and its file existed. -/
theorem extractFrames_mem (ex : List Char → Bool) (tmpDir : List Char) (steps : List StepRec)
    (fr : Frame) (hfr : fr ∈ extractFrames ex tmpDir steps) :
    fr.path = String.mk (framePath tmpDir fr.time.data) ∧ ex (framePath tmpDir fr.time.data) = true := by
  unfold extractFrames at hfr
  obtain ⟨s, _, hs⟩ := List.mem_filterMap.mp hfr
  by_cases hex : ex (framePath tmpDir s.1.data)
  · rw [if_pos hex] at hs
    cases hs
    exact ⟨rfl, hex⟩
  · rw [if_neg hex] at hs
    cases hs

/- ------------------------------------------------------------------ -/
/- Claim theorems                                                     -/
/- ------------------------------------------------------------------ -/

/-- C1 counterexample: the draft `"[00:05] Fold box\n[00:12] Seal box"`
contains two distinct well-formed `[MM:SS]` markers, yet the parsing
step returns zero step records — markers on plain lines are never
recognised, only procedure-table rows are. -/
theorem parse_ignores_markers_outside_table :
    findAllClock exDraftPlain.data = ["00:05".data, "00:12".data] ∧
    parse exDraftPlain = some [] := by
  constructor <;> decide

/-- C1 (amended): markers produce steps only through procedure-table
rows: whenever parsing succeeds, it returns exactly one step record per
collected table row of the `6.0 Procedure` section, in row order, the
`j`-th record being the column/timestamp extraction of the `j`-th row
(timestamp from the TIMESTAMP cell paired with the ACTION cell). -/
theorem parse_one_step_per_table_row (cleaned : String) (steps : List StepRec)
    (h : parse cleaned = some steps) :
    steps.length = (collectRows false (pySplitlines cleaned.data)).length ∧
    ∀ j s, steps.get? j = some s →
      ∃ r, (collectRows false (pySplitlines cleaned.data)).get? j = some r ∧
        parseRow r = some s := by
  have he : rowsParse (collectRows false (pySplitlines cleaned.data)) = some steps := by
    rw [← parseLoop_eq_rowsParse]
    exact h
  exact ⟨rowsParse_length he, fun j s hs => rowsParse_get he j s hs⟩

/-- C1 witness: on a two-row procedure table the parse yields the two
records, and their count equals the row count. -/
theorem parse_one_step_per_table_row_witness :
    ([(("00:05" : String), ("Fold box" : String), ("Sharp blade" : String)),
      ("00:12", "Seal box", "None")] : List StepRec).length
      = (collectRows false (pySplitlines exDraftTable.data)).length :=
  (parse_one_step_per_table_row exDraftTable
    [("00:05", "Fold box", "Sharp blade"), ("00:12", "Seal box", "None")] (by decide)).1

/-- C2 counterexample: a procedure-table row whose TIMESTAMP cell holds
the malformed (non-digit) marker `[AB:CD]` makes parsing raise
(`re.search` returns `None` and `.group(1)` fails), instead of the
marker being ignored: parsing is not total. -/
theorem malformed_row_marker_errors : parse exDraftBadRow = none := by decide

/-- C2 (amended): malformed bracketed markers outside procedure-table
rows are ignored without error, and parsing succeeds whenever every
collected table row is well-formed (five cells and a two-digit
`[DD:DD]` in the TIMESTAMP cell); it raises only on a malformed table
row.  (`[99:99]` has two-digit fields, so it is accepted as timestamp
`99:99`, not ignored, and does not crash.) -/
theorem parse_total_on_wellformed_rows (cleaned : String)
    (h : ∀ r ∈ collectRows false (pySplitlines cleaned.data), (parseRow r).isSome) :
    (parse cleaned).isSome := by
  rw [parse, parseLoop_eq_rowsParse]
  exact rowsParse_isSome h

/-- C2 witness: a draft with malformed markers on plain lines and one
well-formed table row parses without error. -/
theorem parse_total_on_wellformed_rows_witness : (parse exDraftMixed).isSome :=
  parse_total_on_wellformed_rows exDraftMixed (by decide)

/-- C3 counterexample: the marker `[00:05]` re-emitted in two table rows
with different trailing text yields two step records at the same
timestamp — the registry does not collapse duplicates and first-seen
text does not win the only slot. -/
theorem duplicate_marker_not_collapsed :
    parse exDraftDup
      = some [("00:05", "First action", "h1"), ("00:05", "Second action", "h2")] ∧
    ((parse exDraftDup).getD []).countP (fun s => s.1 == "00:05") = 2 := by
  constructor <;> decide

/-- C3 (amended): duplicate timestamps are kept, one step per row: for
every draft that parses, the number of steps bearing a timestamp equals
the number of collected table rows whose extraction yields that
timestamp, each step keeping its own row's text. -/
theorem steps_per_timestamp_eq_rows (cleaned : String) (steps : List StepRec) (ts : String)
    (h : parse cleaned = some steps) :
    steps.countP (fun s => s.1 == ts)
      = (collectRows false (pySplitlines cleaned.data)).countP
          (fun r => ((parseRow r).map (fun s => s.1 == ts)).getD false) := by
  have he : rowsParse (collectRows false (pySplitlines cleaned.data)) = some steps := by
    rw [← parseLoop_eq_rowsParse]
    exact h
  exact rowsParse_countP _ he

/-- C3 witness: on the duplicated-marker draft both counts are 2. -/
theorem steps_per_timestamp_eq_rows_witness :
    ([(("00:05" : String), ("First action" : String), ("h1" : String)),
      ("00:05", "Second action", "h2")] : List StepRec).countP (fun s => s.1 == "00:05")
      = (collectRows false (pySplitlines exDraftDup.data)).countP
          (fun r => ((parseRow r).map (fun s => s.1 == "00:05")).getD false) :=
  steps_per_timestamp_eq_rows exDraftDup
    [("00:05", "First action", "h1"), ("00:05", "Second action", "h2")] "00:05" (by decide)

/-- C6 counterexample: a draft containing no marker of any supported
shape (no clock bracket, no `<number>s`) can still make parsing raise,
through a table-looking line inside the 6.0 Procedure section whose
TIMESTAMP cell has no pattern — the no-markers state is not always the
quiet empty sequence. -/
theorem pseudo_row_without_marker_errors :
    findAllClock exDraftNoMarker.data = [] ∧
    findAllSeconds exDraftNoMarker.data = [] ∧
    parse exDraftNoMarker = none := by
  refine ⟨by decide, by decide, by decide⟩

/-- C6 (amended): for every draft with no table-looking line (no line
whose strip begins `"| ["`), parsing returns the empty sequence — the
normal "no steps" state the caller reports with an informational
message (lines 188-189 of the source) — and never an error. -/
theorem no_rows_parse_empty (cleaned : String)
    (h : ∀ l ∈ pySplitlines cleaned.data, rowStart l = false) :
    parse cleaned = some [] := by
  rw [parse, parseLoop_eq_rowsParse, collectRows_nil _ _ h]
  rfl

/-- C6 witness: a markerless prose draft parses to the empty step
list. -/
theorem no_rows_parse_empty_witness : parse exDraftProse = some [] :=
  no_rows_parse_empty exDraftProse (by decide)

/-- C4: deleting the step at a valid index `i` removes exactly one
element from the steps and from the frames, and any browsing cursor
recomputed from the rebuilt selectbox labels lies in `[0, n-2]`; when
the registry empties there is no label left to choose (the empty
state of lines 188-189 of the source). -/
theorem delete_shrinks_registry_and_clamps_cursor
    (steps : List StepRec) (frames : List Frame) (i : Nat) (choice : String) (c : Nat)
    (hs : i < steps.length) (hf : i < frames.length)
    (hc : pyIndex (labelsOf (pyPop steps i)) choice = some c) :
    (pyPop steps i).length = steps.length - 1 ∧
    (pyPop frames i).length = frames.length - 1 ∧
    c + 1 ≤ steps.length - 1 := by
  have l1 : (pyPop steps i).length = steps.length - 1 := by
    simp only [pyPop, List.length_append, List.length_take, List.length_drop]
    omega
  have l2 : (pyPop frames i).length = frames.length - 1 := by
    simp only [pyPop, List.length_append, List.length_take, List.length_drop]
    omega
  have l3 : c < (labelsOf (pyPop steps i)).length := pyIndex_lt _ _ _ hc
  have l4 : (labelsOf (pyPop steps i)).length = (pyPop steps i).length := by
    simp [labelsOf]
  omega

/-- C4 witness: deleting index 0 from a two-step registry leaves one
step and one frame, and the recomputed cursor 0 satisfies the bound. -/
theorem delete_shrinks_registry_and_clamps_cursor_witness :
    (pyPop ([("00:05", "Fold box", "h"), ("00:12", "Seal box", "h")] : List StepRec) 0).length
        = ([("00:05", "Fold box", "h"), ("00:12", "Seal box", "h")] : List StepRec).length - 1 ∧
    (pyPop ([⟨"00:05", "/tmp/frame_00_05.png"⟩, ⟨"00:12", "/tmp/frame_00_12.png"⟩] : List Frame) 0).length
        = ([⟨"00:05", "/tmp/frame_00_05.png"⟩, ⟨"00:12", "/tmp/frame_00_12.png"⟩] : List Frame).length - 1 ∧
    0 + 1 ≤ ([("00:05", "Fold box", "h"), ("00:12", "Seal box", "h")] : List StepRec).length - 1 :=
  delete_shrinks_registry_and_clamps_cursor
    [("00:05", "Fold box", "h"), ("00:12", "Seal box", "h")]
    [⟨"00:05", "/tmp/frame_00_05.png"⟩, ⟨"00:12", "/tmp/frame_00_12.png"⟩]
    0 "Step 1 – [00:12] Seal box" 0 (by decide) (by decide) (by decide)

/-- C5: document assembly never fails on a missing image: a step whose
timestamp has no frame record is emitted as text only — its heading
(step number, timestamp, action) and hazard paragraph, no picture —
and every picture the assembly does emit is the path of a registered
frame, so no broken image reference is ever emitted. -/
theorem assembly_missing_image_text_only
    (steps : List StepRec) (frames : List Frame) (idx : Nat) (s : StepRec) (p : String)
    (hmiss : lookupImg frames s.1 = none)
    (hp : DocItem.picture p ∈ emitProcedure steps frames) :
    stepBlock frames idx s
      = [DocItem.heading ("Step " ++ toString idx ++ " – [" ++ s.1 ++ "] " ++ s.2.1) 2,
         DocItem.para ("Hazard: " ++ s.2.2)] ∧
    ∃ f ∈ frames, f.path = p := by
  constructor
  · unfold stepBlock
    rw [hmiss]
  · unfold emitProcedure at hp
    obtain ⟨block, hb, hpb⟩ := List.mem_flatten.mp hp
    obtain ⟨q, _, hq⟩ := List.mem_map.mp hb
    subst hq
    exact stepBlock_picture frames (q.1 + 1) q.2 p hpb

/-- C5 witness: with a frame only for `00:12`, the `00:05` step is
emitted text-only while the emitted picture is the registered frame's
path. -/
theorem assembly_missing_image_text_only_witness :
    stepBlock [⟨"00:12", "/tmp/frame_00_12.png"⟩] 1 ("00:05", "Fold box", "Sharp") =
      [DocItem.heading ("Step " ++ toString 1 ++ " – [" ++ "00:05" ++ "] " ++ "Fold box") 2,
       DocItem.para ("Hazard: " ++ "Sharp")] ∧
    ∃ f ∈ ([⟨"00:12", "/tmp/frame_00_12.png"⟩] : List Frame), f.path = "/tmp/frame_00_12.png" :=
  assembly_missing_image_text_only
    [("00:05", "Fold box", "Sharp"), ("00:12", "Seal box", "None")]
    [⟨"00:12", "/tmp/frame_00_12.png"⟩] 1 ("00:05", "Fold box", "Sharp")
    "/tmp/frame_00_12.png" (by decide) (by decide)

/-- C7: (about the mention scanner, spec-modelled) clock-bracket
records take precedence: with at least one clock match the records are
exactly the clock timestamps; with zero clock matches the seconds
fallback produces one record per distinct numeric value, all with the
empty label and no repeated value. -/
theorem seconds_fallback_only_without_clock (text : String) :
    (findAllClock text.data ≠ [] →
      (mentionRecords text).map Prod.fst = (findAllClock text.data).map String.mk) ∧
    (findAllClock text.data = [] →
      (mentionRecords text).map Prod.fst
          = (dedupFirst (findAllSeconds text.data)).map String.mk ∧
      (∀ r ∈ mentionRecords text, r.2 = "") ∧
      ((mentionRecords text).map Prod.fst).Nodup) := by
  constructor
  · intro hne
    unfold mentionRecords
    rw [if_neg (by simpa [List.isEmpty_iff] using hne)]
    simp
  · intro he
    unfold mentionRecords
    rw [if_pos (by simp [he])]
    refine ⟨by simp, by simp, ?_⟩
    simp only [List.map_map]
    have : (Prod.fst ∘ fun n => (String.mk n, ("" : String))) = String.mk := rfl
    rw [this]
    exact (dedupAux_nodup _ _).map stringMk_injective

/-- C7 witness: with clock markers present the `12s` mention is not
scanned; without them the two distinct seconds values each give one
empty-labelled record. -/
theorem seconds_fallback_only_without_clock_witness :
    ((mentionRecords exMentionClock).map Prod.fst
        = (findAllClock exMentionClock.data).map String.mk) ∧
    ((mentionRecords exMentionSecs).map Prod.fst
          = (dedupFirst (findAllSeconds exMentionSecs.data)).map String.mk ∧
      (∀ r ∈ mentionRecords exMentionSecs, r.2 = "") ∧
      ((mentionRecords exMentionSecs).map Prod.fst).Nodup) :=
  ⟨(seconds_fallback_only_without_clock exMentionClock).1 (by decide),
   (seconds_fallback_only_without_clock exMentionSecs).2 (by decide)⟩

/-- C8: (spec-modelled `reExtract`) re-extraction for the same step
against the unchanged video writes the decoder's (deterministic) image
to the same canonical path, doing it twice equals doing it once, and
the registry's steps are unchanged — it never grows. -/
theorem reextract_idempotent_same_path
    (decode : List Char → List Char → Nat) (tmpDir video : List Char)
    (st : RegState) (i : Nat) (s : StepRec) (hi : st.steps.get? i = some s) :
    reExtract decode tmpDir video st i
        = some { st with fs := fsWrite st.fs (framePath tmpDir s.1.data) (decode video s.1.data) } ∧
    reExtract decode tmpDir video
        { st with fs := fsWrite st.fs (framePath tmpDir s.1.data) (decode video s.1.data) } i
      = some { st with fs := fsWrite st.fs (framePath tmpDir s.1.data) (decode video s.1.data) } ∧
    ({ st with fs := fsWrite st.fs (framePath tmpDir s.1.data) (decode video s.1.data) } : RegState).steps
      = st.steps := by
  refine ⟨?_, ?_, rfl⟩
  · unfold reExtract
    rw [hi]
  · unfold reExtract
    simp only [hi]
    rw [fsWrite_idem]

/-- C8 witness: on a one-step registry, re-extraction at index 0 is
idempotent and keeps the steps. -/
theorem reextract_idempotent_same_path_witness :
    reExtract (fun _ _ => 7) "/tmp".data "v.mp4".data ⟨[("00:05", "a", "h")], []⟩ 0
        = some { steps := [("00:05", "a", "h")],
                 fs := fsWrite [] (framePath "/tmp".data "00:05".data) 7 } ∧
    reExtract (fun _ _ => 7) "/tmp".data "v.mp4".data
        { steps := [("00:05", "a", "h")],
          fs := fsWrite [] (framePath "/tmp".data "00:05".data) 7 } 0
      = some { steps := [("00:05", "a", "h")],
               fs := fsWrite [] (framePath "/tmp".data "00:05".data) 7 } ∧
    ({ steps := [("00:05", "a", "h")],
       fs := fsWrite [] (framePath "/tmp".data "00:05".data) 7 } : RegState).steps
      = [("00:05", "a", "h")] :=
  reextract_idempotent_same_path (fun _ _ => 7) "/tmp".data "v.mp4".data
    ⟨[("00:05", "a", "h")], []⟩ 0 ("00:05", "a", "h") (by decide)

/-- C9 counterexample: for `raw = "intro\n1.0 Purpose\nbody\n"` the
stored draft is `"1.0 Purpose\nbody"`, which is not a suffix of `raw`
at all (the trailing newline is not preserved by the
split-then-rejoin). -/
theorem cleaned_not_literal_suffix :
    stripBoilerplate exRawTrail = "1.0 Purpose\nbody" ∧
    (stripBoilerplate exRawTrail).data.isSuffixOf exRawTrail.data = false := by
  constructor <;> decide

/-- C9 (amended): the stored draft equals the `\n`-join of the lines of
`raw` from the first line matching `^1\.0\s+Purpose` on (line
terminators are not preserved); when no line matches, `raw` is kept
verbatim; `raw` itself is only read, never changed. -/
theorem strip_boilerplate_first_match (raw : String) :
    (firstPurposeIdx (pySplitlines raw.data) = none → stripBoilerplate raw = raw) ∧
    (∀ idx, firstPurposeIdx (pySplitlines raw.data) = some idx →
      (∃ l, (pySplitlines raw.data).get? idx = some l ∧ matchPurpose l = true) ∧
      (∀ j, j < idx → ∀ l, (pySplitlines raw.data).get? j = some l → matchPurpose l = false) ∧
      stripBoilerplate raw = String.mk (joinNL ((pySplitlines raw.data).drop idx))) := by
  constructor
  · intro h
    unfold stripBoilerplate
    rw [h]
  · intro idx h
    obtain ⟨hat, hbefore⟩ := firstPurposeIdx_spec _ _ h
    refine ⟨hat, hbefore, ?_⟩
    unfold stripBoilerplate
    rw [h]

/-- C9 witness: the boilerplate line `"intro"` is dropped and the rest
re-joined; a matchless text is kept verbatim. -/
theorem strip_boilerplate_first_match_witness :
    stripBoilerplate exRawTrail
        = String.mk (joinNL ((pySplitlines exRawTrail.data).drop 1)) ∧
    stripBoilerplate exDraftProse = exDraftProse :=
  ⟨((strip_boilerplate_first_match exRawTrail).2 1 (by decide)).2.2,
   (strip_boilerplate_first_match exDraftProse).1 (by decide)⟩

/-- C10: an extracted frame's path is the canonical
`frame_MM_SS.png` path of its timestamp inside the session directory, a
frame record exists only when the file existed after extraction, and the
docx lookup is by timestamp equality, so any successful lookup — in
particular for two steps sharing a timestamp — returns that one
canonical path. -/
theorem frame_path_canonical_lookup
    (ex : List Char → Bool) (tmpDir : List Char) (steps : List StepRec)
    (fr : Frame) (ts p : String)
    (hfr : fr ∈ extractFrames ex tmpDir steps)
    (hlk : lookupImg (extractFrames ex tmpDir steps) ts = some p) :
    fr.path = String.mk (framePath tmpDir fr.time.data) ∧
    ex (framePath tmpDir fr.time.data) = true ∧
    p = String.mk (framePath tmpDir ts.data) ∧
    ex (framePath tmpDir ts.data) = true := by
  obtain ⟨h1, h2⟩ := extractFrames_mem ex tmpDir steps fr hfr
  refine ⟨h1, h2, ?_⟩
  unfold lookupImg at hlk
  cases hf : (extractFrames ex tmpDir steps).find? (fun f => f.time == ts) with
  | none => rw [hf] at hlk; cases hlk
  | some f =>
    rw [hf] at hlk
    simp only [Option.map_some', Option.some.injEq] at hlk
    subst hlk
    have hmem : f ∈ extractFrames ex tmpDir steps := List.mem_of_find?_eq_some hf
    have hts : f.time = ts := by
      have := List.find?_some hf
      simpa [beq_iff_eq] using this
    obtain ⟨h3, h4⟩ := extractFrames_mem ex tmpDir steps f hmem
    rw [hts] at h3 h4
    exact ⟨h3, h4⟩

/-- C10 witness: two steps sharing `00:05` both resolve to the single
canonical frame path, which existed. -/
theorem frame_path_canonical_lookup_witness :
    (⟨"00:05", String.mk (framePath "/tmp".data "00:05".data)⟩ : Frame).path
        = String.mk (framePath "/tmp".data (("00:05" : String)).data) ∧
    (fun _ => true) (framePath "/tmp".data (("00:05" : String)).data) = true ∧
    String.mk (framePath "/tmp".data "00:05".data)
        = String.mk (framePath "/tmp".data (("00:05" : String)).data) ∧
    (fun _ => true) (framePath "/tmp".data (("00:05" : String)).data) = true :=
  frame_path_canonical_lookup (fun _ => true) "/tmp".data
    [("00:05", "First", "h1"), ("00:05", "Second", "h2")]
    ⟨"00:05", String.mk (framePath "/tmp".data "00:05".data)⟩ "00:05"
    (String.mk (framePath "/tmp".data "00:05".data)) (by decide) (by decide)
